import Mathlib

/-!
Verification development for the `nanobanana_grok` repository
(`src/app.py`, `src/basic_setting.py`).

The development shallowly embeds the parts of the program that the
specification's testable properties concern:

* `decode_image_data` (`app.py` lines 462-472, identical copy in
  `basic_setting.py` lines 54-64): the best-effort image payload decoder.
  Python's `base64.b64decode(s)` (with `validate=False`) is modelled by
  `pyB64Decode`, a faithful translation of CPython's non-strict
  `binascii.a2b_base64` state machine: characters outside the base64
  alphabet are discarded, `=` padding terminates a quad once enough data
  characters were seen, and a dangling quad position at end of input is an
  error (modelled as `none`, since the Python wrapper catches
  `ValueError`/`TypeError` and returns `None`).

* `collect_image_bytes` (`app.py` lines 524-630): the breadth-first
  extractor over an arbitrarily shaped response object graph.  Python
  object graphs may contain cycles, so the graph is embedded as a heap of
  nodes addressed by object identities (`Ref = Nat`), and the `while`
  loop is embedded as the fuel-indexed step function `collectSteps`
  (one fuel unit per loop iteration).  A potential-function argument
  proves that `queue.length + potential + 1` fuel always suffices, and
  `collect_image_bytes` runs the loop with that fuel.

* `_serialize_history` / `_deserialize_history` (`app.py` lines 275-309),
  history insertion (`app.py` lines 1110-1120), and
  `sanitize_filename_component` / `build_prompt_based_filename`
  (`app.py` lines 666-692).

Modelling conventions: Python `bytes` values are `List Nat` with entries
below 256; `bytearray`/`memoryview` are folded into the `bytes` node kind
(the code immediately converts them with `bytes(...)`); a generic
(non-dict, non-sequence) API object is a `Node.obj` with an attribute
list, and only `Node.list` is `Sequence`-like, matching the `google.genai`
response types, which are not sequences.
-/

/-! ## Base64: CPython's non-strict `binascii.a2b_base64` -/

/-- Value of a character in the standard base64 alphabet, `none` for
characters outside it (CPython's `table_a2b_base64`). -/
def b64val (c : Char) : Option Nat :=
  let n := c.toNat
  if 65 ≤ n ∧ n ≤ 90 then some (n - 65)
  else if 97 ≤ n ∧ n ≤ 122 then some (n - 71)
  else if 48 ≤ n ∧ n ≤ 57 then some (n + 4)
  else if n = 43 then some 62
  else if n = 47 then some 63
  else none

/-- CPython `binascii.a2b_base64` in non-strict mode (the default used by
`base64.b64decode`).  State: quad position, pending bits, consecutive pad
count, output bytes (reversed).  Characters outside the alphabet are
skipped; `=` after two or three data characters of a quad terminates the
input once the quad is "complete"; a non-zero quad position at the end of
input is a decoding error (`none`). -/
def pyB64DecodeChars : List Char → Nat → Nat → Nat → List Nat → Option (List Nat)
  | [], qp, _, _, out => if qp = 0 then some out.reverse else none
  | c :: rest, qp, left, pads, out =>
    if c = '=' then
      if 2 ≤ qp ∧ 4 ≤ qp + (pads + 1) then some out.reverse
      else if 2 ≤ qp then pyB64DecodeChars rest qp left (pads + 1) out
      else pyB64DecodeChars rest qp left pads out
    else
      match b64val c with
      | none => pyB64DecodeChars rest qp left pads out
      | some v =>
        match qp with
        | 0 => pyB64DecodeChars rest 1 v 0 out
        | 1 => pyB64DecodeChars rest 2 (v % 16) 0 ((left * 4 + v / 16) :: out)
        | 2 => pyB64DecodeChars rest 3 (v % 4) 0 ((left * 16 + v / 4) :: out)
        | _ => pyB64DecodeChars rest 0 0 0 ((left * 64 + v) :: out)

/-- Python `base64.b64decode` applied to a `str`: the string is first
encoded as ASCII (non-ASCII input raises `UnicodeEncodeError`, a
`ValueError`, modelled as `none`), then fed to `a2b_base64`. -/
def pyB64Decode (s : String) : Option (List Nat) :=
  if s.data.all (fun c => c.toNat < 128) then pyB64DecodeChars s.data 0 0 0 []
  else none

/-! ## Base64 encoding (`base64.b64encode`) -/

/-- Code point of the character a 6-bit value encodes to. -/
def b64code (n : Nat) : Nat :=
  if n < 26 then 65 + n
  else if n < 52 then 71 + n
  else if n < 62 then n - 4
  else if n = 62 then 43
  else 47

/-- Character a 6-bit value encodes to. -/
def b64chr (n : Nat) : Char := Char.ofNat (b64code n)

/-- Standard base64 encoding of a byte list, with `=` padding. -/
def b64encodeList : List Nat → List Char
  | [] => []
  | [a] => [b64chr (a / 4), b64chr (a % 4 * 16), '=', '=']
  | [a, b] => [b64chr (a / 4), b64chr (a % 4 * 16 + b / 16), b64chr (b % 16 * 4), '=']
  | a :: b :: c :: rest =>
    b64chr (a / 4) :: b64chr (a % 4 * 16 + b / 16) :: b64chr (b % 16 * 4 + c / 64) ::
      b64chr (c % 64) :: b64encodeList rest

/-- Python `base64.b64encode(bytes).decode("utf-8")`. -/
def b64encode (b : List Nat) : String := String.mk (b64encodeList b)

/-! ## The response object graph -/

/-- Object identity, as used by Python's `id()`. -/
abbrev Ref := Nat

/-- One Python value in a response object graph.  `nil` is Python `None`;
`bytes` covers `bytes`/`bytearray`/`memoryview`; `dict` is an associative
container with insertion-ordered fields; `obj` is a generic API object
with named attributes (not a `Sequence`); `list` is a `Sequence`. -/
inductive Node where
  | nil : Node
  | bytes : List Nat → Node
  | str : String → Node
  | dict : List (String × Ref) → Node
  | obj : List (String × Ref) → Node
  | list : List Ref → Node

/-- A finite Python object graph: nodes addressed by identity.  Cyclic
references are simply refs pointing back at ancestors. -/
abbrev Heap := List (Ref × Node)

/-- Look up the node stored at an object identity. -/
def heapFind (h : Heap) (r : Ref) : Option Node :=
  (h.find? (fun p => p.1 == r)).map Prod.snd

/-- First binding of a key in a field/attribute list (`dict.get` /
`getattr`). -/
def assocFind (l : List (String × Ref)) (k : String) : Option Ref :=
  (l.find? (fun p => p.1 == k)).map Prod.snd

/-- `decode_image_data` (`app.py` 462-472): `None → None`; `bytes`
returned unchanged; `str` → best-effort base64 decode, `None` on failure;
anything else → `None`. -/
def decode_image_data : Node → Option (List Nat)
  | Node.nil => none
  | Node.bytes b => some b
  | Node.str s => pyB64Decode s
  | _ => none

/-- Python truthiness of a value, as used by `if file_data:` and
`if image_b64:`. -/
def truthy : Node → Bool
  | Node.nil => false
  | Node.bytes b => !b.isEmpty
  | Node.str s => !s.data.isEmpty
  | Node.dict f => !f.isEmpty
  | Node.obj _ => true
  | Node.list l => !l.isEmpty

/-- `if decoded:` — keep a decode result only when it is truthy
(non-`None` and non-empty). -/
def truthyB : Option (List Nat) → Option (List Nat)
  | some b => if b = [] then none else some b
  | none => none

/-- The `data` field of a container, looked up by `getattr` and, for
dicts, by `container.get("data")` (`handle_inline` body). -/
def dataFieldOf : Node → Option Ref
  | Node.dict fields => assocFind fields "data"
  | Node.obj attrs => assocFind attrs "data"
  | _ => none

/-- The `file_data` field of a container (`maybe_file_data` body). -/
def fileDataFieldOf : Node → Option Ref
  | Node.dict fields => assocFind fields "file_data"
  | Node.obj attrs => assocFind attrs "file_data"
  | _ => none

/-- Apply `decode_image_data` to the value a ref points at (`None` when
the field was absent). -/
def decodeORef (h : Heap) : Option Ref → Option (List Nat)
  | none => none
  | some r =>
    match heapFind h r with
    | none => none
    | some n => decode_image_data n

/-- `handle_inline` (`app.py` 531-537): `None` container → `None`;
otherwise decode the container's `data` field. -/
def handleInline (h : Heap) (container : Option Ref) : Option (List Nat) :=
  match container with
  | none => none
  | some cr =>
    match heapFind h cr with
    | none => none
    | some n => decodeORef h (dataFieldOf n)

/-- `maybe_file_data` (`app.py` 539-552): fetch `file_data`; if truthy,
decode its `data` field and return the result only when truthy. -/
def maybeFileData (h : Heap) (n : Node) : Option (List Nat) :=
  match fileDataFieldOf n with
  | none => none
  | some fr =>
    match heapFind h fr with
    | none => none
    | some fn =>
      if truthy fn then truthyB (decodeORef h (dataFieldOf fn)) else none

/-- The key scan of the dict branch (`app.py` 595-600): the first key in
`{data, image, blob}` whose value decodes to truthy bytes wins (the
enqueueing of values is handled separately by the loop step, since a hit
returns immediately). -/
def firstKeyHit (h : Heap) : List (String × Ref) → Option (List Nat)
  | [] => none
  | (k, vr) :: rest =>
    if k = "data" ∨ k = "image" ∨ k = "blob" then
      match truthyB (decodeORef h vr) with
      | some b => some b
      | none => firstKeyHit h rest
    else firstKeyHit h rest

/-- Everything in the dict branch that can `return` (`app.py` 585-599):
`inline_data`, then `file_data`, then the key scan. -/
def dictHit (h : Heap) (fields : List (String × Ref)) : Option (List Nat) :=
  match truthyB (handleInline h (assocFind fields "inline_data")) with
  | some b => some b
  | none =>
    match maybeFileData h (Node.dict fields) with
    | some b => some b
    | none => firstKeyHit h fields

/-- Everything in the generic-object branch that can `return`
(`app.py` 603-609): `inline_data` via attribute access, then `file_data`. -/
def objHit (h : Heap) (attrs : List (String × Ref)) : Option (List Nat) :=
  match truthyB (handleInline h (assocFind attrs "inline_data")) with
  | some b => some b
  | none => maybeFileData h (Node.obj attrs)

/-- The fixed attribute fallback order (`app.py` 611-622). -/
def attrCandidates : List String :=
  ["candidates", "content", "parts", "generated_content", "contents",
   "responses", "messages", "media", "image", "images"]

/-- Refs enqueued by the generic-object branch: each candidate attribute
that is present and not `None` (`if value is not None: queue.append`). -/
def objEnqueue (h : Heap) (attrs : List (String × Ref)) : List Ref :=
  attrCandidates.filterMap (fun a =>
    match assocFind attrs a with
    | some vr =>
      match heapFind h vr with
      | some Node.nil => none
      | _ => some vr
    | none => none)

/-- Python `str.strip()` whitespace (ASCII whitespace, NEL, NBSP and the
Unicode space separators). -/
def pyIsStripSpace (c : Char) : Bool :=
  let n := c.toNat
  (9 ≤ n ∧ n ≤ 13) || n = 32 || (28 ≤ n ∧ n ≤ 31) || n = 133 || n = 160 ||
    n = 5760 || (8192 ≤ n ∧ n ≤ 8202) || n = 8232 || n = 8233 || n = 8239 ||
    n = 8287 || n = 12288

/-- Python `str.strip()`. -/
def pyStrip (s : String) : String :=
  String.mk (((s.data.dropWhile pyIsStripSpace).reverse.dropWhile pyIsStripSpace).reverse)

/-- Membership in `base64_charset` (`app.py` 554): letters, digits, `+`,
`/`, `=`, and line breaks. -/
def base64CharsetChar (c : Char) : Bool :=
  let n := c.toNat
  (65 ≤ n ∧ n ≤ 90) || (97 ≤ n ∧ n ≤ 122) || (48 ≤ n ∧ n ≤ 57) ||
    n = 43 || n = 47 || n = 61 || n = 10 || n = 13

/-- `set(candidate) <= base64_charset`. -/
def base64Shaped (s : String) : Bool := s.data.all base64CharsetChar

/-- One run of the `while queue:` loop of `collect_image_bytes`
(`app.py` 556-630), spending one unit of fuel per iteration.  The outer
`Option` is `none` exactly when fuel runs out; `some result` is the
loop's outcome (Python: `return`ed bytes or the final `return None`). -/
def collectSteps (h : Heap) : Nat → List Ref → Finset Nat → Option (Option (List Nat))
  | 0, _, _ => none
  | fuel + 1, queue, visited =>
    match queue with
    | [] => some none
    | r :: rest =>
      match heapFind h r with
      | none => collectSteps h fuel rest visited
      | some Node.nil => collectSteps h fuel rest visited
      | some (Node.bytes b) =>
        if b = [] then collectSteps h fuel rest visited else some (some b)
      | some (Node.str s) =>
        if 80 < (pyStrip s).length ∧ base64Shaped (pyStrip s) = true then
          match truthyB (decode_image_data (Node.str (pyStrip s))) with
          | some d => some (some d)
          | none => collectSteps h fuel rest visited
        else collectSteps h fuel rest visited
      | some (Node.dict fields) =>
        if r ∈ visited then collectSteps h fuel rest visited
        else
          match dictHit h fields with
          | some b => some (some b)
          | none =>
            collectSteps h fuel (rest ++ fields.map Prod.snd) (insert r visited)
      | some (Node.obj attrs) =>
        if r ∈ visited then collectSteps h fuel rest visited
        else
          match objHit h attrs with
          | some b => some (some b)
          | none =>
            collectSteps h fuel (rest ++ objEnqueue h attrs) (insert r visited)
      | some (Node.list elems) =>
        if r ∈ visited then collectSteps h fuel rest visited
        else collectSteps h fuel (rest ++ elems) (insert r visited)

/-- Is a node a composite (subject to the identity-based visited set)? -/
def Node.isComposite : Node → Bool
  | Node.dict _ => true
  | Node.obj _ => true
  | Node.list _ => true
  | _ => false

/-- Refs that the loop would enqueue when processing a node for the first
time. -/
def nodeEnqueue (h : Heap) : Node → List Ref
  | Node.dict fields => fields.map Prod.snd
  | Node.obj attrs => objEnqueue h attrs
  | Node.list elems => elems
  | _ => []

/-- The identities present in a heap. -/
def heapDom (h : Heap) : Finset Nat := (h.map Prod.fst).toFinset

/-- Does the heap store a composite node at this identity? -/
def isCompositeAt (h : Heap) (r : Nat) : Bool :=
  match heapFind h r with
  | some n => n.isComposite
  | none => false

/-- Identities of composite nodes in a heap. -/
def compositeDom (h : Heap) : Finset Nat :=
  (heapDom h).filter (fun r => isCompositeAt h r = true)

/-- Number of refs a first visit of this identity would enqueue. -/
def childCount (h : Heap) (r : Nat) : Nat :=
  match heapFind h r with
  | some n => (nodeEnqueue h n).length
  | none => 0

/-- Total enqueue capacity of the not-yet-visited composites: the loop's
termination potential. -/
def potential (h : Heap) (visited : Finset Nat) : Nat :=
  (compositeDom h \ visited).sum (fun r => childCount h r)

/-- The loop, run with provably sufficient fuel. -/
def collectLoop (h : Heap) (queue : List Ref) (visited : Finset Nat) : Option (List Nat) :=
  (collectSteps h (queue.length + potential h visited + 1) queue visited).getD none

/-- `collect_image_bytes` (`app.py` 524-630): seed the queue with the
response unless it is `None`, then run the loop. -/
def collect_image_bytes (h : Heap) (response : Option Ref) : Option (List Nat) :=
  collectLoop h response.toList ∅

/-! ## Session history (`app.py` 275-309, 1110-1120) -/

/-- An in-memory history entry, as built at `app.py` 1110-1119. -/
structure HistoryEntry where
  entry_id : Option String
  prompt : Option String
  model : Option String
  no_text : Option Bool
  image_bytes : Option (List Nat)

/-- A serialized history entry, as written by `_serialize_history`. -/
structure StoredEntry where
  entry_id : Option String
  prompt : Option String
  model : Option String
  no_text : Option Bool
  image_b64 : Option String

/-- One entry of `_serialize_history` (`app.py` 275-292): binary images
are base64-encoded, anything else serializes the image as `None`. -/
def serializeEntry (e : HistoryEntry) : StoredEntry :=
  { entry_id := e.entry_id, prompt := e.prompt, model := e.model, no_text := e.no_text,
    image_b64 :=
      match e.image_bytes with
      | some b => some (b64encode b)
      | none => none }

/-- `_serialize_history` (`app.py` 275-292). -/
def _serialize_history (history : List HistoryEntry) : List StoredEntry :=
  history.map serializeEntry

/-- One entry of `_deserialize_history` (`app.py` 295-309):
`decode_image_data(image_b64) if image_b64 else None`. -/
def deserializeEntry (s : StoredEntry) : HistoryEntry :=
  { entry_id := s.entry_id, prompt := s.prompt, model := s.model, no_text := s.no_text,
    image_bytes :=
      match s.image_b64 with
      | some t => if t = "" then none else decode_image_data (Node.str t)
      | none => none }

/-- `_deserialize_history` (`app.py` 295-309). -/
def _deserialize_history (payload : List StoredEntry) : List HistoryEntry :=
  payload.map deserializeEntry

/-- Python `list.insert(i, x)` (index clamped to the list length). -/
def pyListInsert (i : Nat) (x : α) (l : List α) : List α :=
  l.take i ++ x :: l.drop i

/-- `st.session_state.history.insert(0, entry)` (`app.py` 1110). -/
def historyInsertFront (history : List HistoryEntry) (e : HistoryEntry) : List HistoryEntry :=
  pyListInsert 0 e history

/-! ## Filename sanitisation (`app.py` 666-692) -/

/-- The path-unsafe characters stripped by `sanitize_filename_component`. -/
def pathUnsafeChars : List Char := ['\\', '/', ':', '*', '?', '\"', '<', '>', '|']

/-- Python `str.isspace()` for a single character (the code points with
Unicode bidirectional class WS/B/S or category Zs). -/
def pyIsSpace (c : Char) : Bool :=
  let n := c.toNat
  (9 ≤ n ∧ n ≤ 13) || n = 32 || (28 ≤ n ∧ n ≤ 31) || n = 133 || n = 160 ||
    n = 5760 || (8192 ≤ n ∧ n ≤ 8202) || n = 8232 || n = 8233 || n = 8239 ||
    n = 8287 || n = 12288

/-- The per-character loop body of `sanitize_filename_component`
(`app.py` 669-680): newlines become the `-n-` marker, other control
characters are dropped, path-unsafe characters are dropped, remaining
whitespace becomes `_`, everything else is kept. -/
def charSanitize (c : Char) : List Char :=
  if c = '\n' ∨ c = '\r' then ['-', 'n', '-']
  else if c.toNat < 32 then []
  else if c ∈ pathUnsafeChars then []
  else if pyIsSpace c then ['_']
  else [c]

/-- Python `str.strip("_")`. -/
def stripUnderscores (cs : List Char) : List Char :=
  ((cs.dropWhile (fun c => c = '_')).reverse.dropWhile (fun c => c = '_')).reverse

/-- The sanitized character list before the empty-string fallback and the
truncation steps: `"".join(sanitized_chars).strip("_")`. -/
def sanitizeStripped (value : String) : List Char :=
  stripUnderscores (value.data.flatMap charSanitize)

/-- `sanitize_filename_component` (`app.py` 666-686). -/
def sanitize_filename_component (value : String) (maxLength : Nat) : String :=
  String.mk ((if sanitizeStripped value = [] then "prompt".data
    else sanitizeStripped value).take maxLength)

/-- `build_prompt_based_filename` (`app.py` 689-692); the random
`uuid.uuid4().hex` suffix is a parameter. -/
def build_prompt_based_filename (prompt_text : String) (unique_suffix : String) : String :=
  "user01_" ++
    sanitize_filename_component (if prompt_text = "" then "prompt" else prompt_text) 80 ++
    "_" ++ unique_suffix ++ ".png"

/-! ## Concrete response graphs used by the claims -/

/-- A response graph whose only image payload is an `inline_data.data`
base64 string three levels below the root, surrounded by unrelated
sibling fields (short strings, `None`, empty bytes, a shared
`"image/png"` string). -/
def inlineDeepHeap (s : String) : Heap :=
  [ (0, Node.dict [("alpha", 5), ("beta", 1), ("gamma", 6)]),
    (1, Node.dict [("delta", 7), ("epsilon", 2)]),
    (2, Node.dict [("zeta", 8), ("inline_data", 3), ("eta", 9)]),
    (3, Node.dict [("mime_type", 8), ("data", 4)]),
    (4, Node.str s),
    (5, Node.str "ok"),
    (6, Node.nil),
    (7, Node.str "meta"),
    (8, Node.str "image/png"),
    (9, Node.bytes []) ]

/-- A response graph holding two inline-data payloads; breadth-first
order reaches the part with payload `s1` first. -/
def twoImagesHeap (s1 s2 : String) : Heap :=
  [ (0, Node.dict [("parts", 1)]),
    (1, Node.list [2, 3]),
    (2, Node.dict [("note", 8), ("inline_data", 4)]),
    (3, Node.dict [("inline_data", 5)]),
    (4, Node.dict [("data", 6)]),
    (5, Node.dict [("data", 7)]),
    (6, Node.str s1),
    (7, Node.str s2),
    (8, Node.str "first") ]

/-- A response graph with a cyclic reference: the root dict contains
itself. -/
def cyclicHeap : Heap := [(0, Node.dict [("self", 0)])]

/-- A plain string of 50 base64-looking characters. -/
def str50 : String := "QUJDREVGR0hJSktMTU5PUFFSU1RVVldYWVphYmNkZWZnaGlqa2"

/-- A response graph whose root is just that 50-character string. -/
def str50Heap : Heap := [(0, Node.str str50)]

/-! ## Lemmas about the base64 decoder and encoder -/

theorem b64val_b64chr : ∀ n, n < 64 → b64val (b64chr n) = some n := by decide

theorem b64chr_ne_pad : ∀ n, n < 64 → b64chr n ≠ '=' := by decide

theorem b64chr_ascii : ∀ n, n < 64 → (b64chr n).toNat < 128 := by decide

theorem pad_ascii : ('=').toNat < 128 := by decide

theorem b64val_pad : b64val '=' = none := by decide

theorem b64val_isSome_ascii (c : Char) (hc : (b64val c).isSome = true) : c.toNat < 128 := by
  simp only [b64val] at hc
  split_ifs at hc with h1 h2 h3 h4 h5
  · omega
  · omega
  · omega
  · omega
  · omega
  · simp at hc

theorem b64encodeList_ascii (bs : List Nat) :
    (∀ x ∈ bs, x < 256) → ∀ c ∈ b64encodeList bs, c.toNat < 128 := by
  induction bs using b64encodeList.induct with
  | case1 => intro _ c hc; simp [b64encodeList] at hc
  | case2 a =>
    intro hv c hc
    have ha : a < 256 := hv a (by simp)
    simp only [b64encodeList, List.mem_cons, List.not_mem_nil, or_false] at hc
    rcases hc with rfl | rfl | rfl | rfl
    · exact b64chr_ascii _ (by omega)
    · exact b64chr_ascii _ (by omega)
    · exact pad_ascii
    · exact pad_ascii
  | case3 a b =>
    intro hv c hc
    have ha : a < 256 := hv a (by simp)
    have hb : b < 256 := hv b (by simp)
    simp only [b64encodeList, List.mem_cons, List.not_mem_nil, or_false] at hc
    rcases hc with rfl | rfl | rfl | rfl
    · exact b64chr_ascii _ (by omega)
    · exact b64chr_ascii _ (by omega)
    · exact b64chr_ascii _ (by omega)
    · exact pad_ascii
  | case4 a b c rest ih =>
    intro hv ch hch
    have ha : a < 256 := hv a (by simp)
    have hb : b < 256 := hv b (by simp)
    have hc : c < 256 := hv c (by simp)
    simp only [b64encodeList, List.mem_cons] at hch
    rcases hch with rfl | rfl | rfl | rfl | hmem
    · exact b64chr_ascii _ (by omega)
    · exact b64chr_ascii _ (by omega)
    · exact b64chr_ascii _ (by omega)
    · exact b64chr_ascii _ (by omega)
    · exact ih (fun x hx => hv x (by simp [hx])) ch hmem

theorem pyB64DecodeChars_encode (bs : List Nat) :
    (∀ x ∈ bs, x < 256) →
      ∀ acc, pyB64DecodeChars (b64encodeList bs) 0 0 0 acc = some (acc.reverse ++ bs) := by
  induction bs using b64encodeList.induct with
  | case1 => intro _ acc; simp [b64encodeList, pyB64DecodeChars]
  | case2 a =>
    intro hv acc
    have ha : a < 256 := hv a (by simp)
    have h1 := b64val_b64chr (a / 4) (by omega)
    have h1' := b64chr_ne_pad (a / 4) (by omega)
    have h2 := b64val_b64chr (a % 4 * 16) (by omega)
    have h2' := b64chr_ne_pad (a % 4 * 16) (by omega)
    simp only [b64encodeList, pyB64DecodeChars, h1, h1', h2, h2', if_neg,
      List.reverse_cons]
    norm_num
    omega
  | case3 a b =>
    intro hv acc
    have ha : a < 256 := hv a (by simp)
    have hb : b < 256 := hv b (by simp)
    have h1 := b64val_b64chr (a / 4) (by omega)
    have h1' := b64chr_ne_pad (a / 4) (by omega)
    have h2 := b64val_b64chr (a % 4 * 16 + b / 16) (by omega)
    have h2' := b64chr_ne_pad (a % 4 * 16 + b / 16) (by omega)
    have h3 := b64val_b64chr (b % 16 * 4) (by omega)
    have h3' := b64chr_ne_pad (b % 16 * 4) (by omega)
    simp only [b64encodeList, pyB64DecodeChars, h1, h1', h2, h2', h3, h3', if_neg,
      List.reverse_cons]
    norm_num
    constructor
    · omega
    · omega
  | case4 a b c rest ih =>
    intro hv acc
    have ha : a < 256 := hv a (by simp)
    have hb : b < 256 := hv b (by simp)
    have hc : c < 256 := hv c (by simp)
    have h1 := b64val_b64chr (a / 4) (by omega)
    have h1' := b64chr_ne_pad (a / 4) (by omega)
    have h2 := b64val_b64chr (a % 4 * 16 + b / 16) (by omega)
    have h2' := b64chr_ne_pad (a % 4 * 16 + b / 16) (by omega)
    have h3 := b64val_b64chr (b % 16 * 4 + c / 64) (by omega)
    have h3' := b64chr_ne_pad (b % 16 * 4 + c / 64) (by omega)
    have h4 := b64val_b64chr (c % 64) (by omega)
    have h4' := b64chr_ne_pad (c % 64) (by omega)
    have e1 : a / 4 * 4 + (a % 4 * 16 + b / 16) / 16 = a := by omega
    have e2 : (a % 4 * 16 + b / 16) % 16 * 16 + (b % 16 * 4 + c / 64) / 4 = b := by omega
    have e3 : (b % 16 * 4 + c / 64) % 4 * 64 + c % 64 = c := by omega
    simp only [b64encodeList, pyB64DecodeChars, h1, h1', h2, h2', h3, h3', h4, h4', if_neg]
    rw [e1, e2, e3, ih (fun x hx => hv x (by simp [hx])) (c :: b :: a :: acc)]
    simp

theorem pyB64Decode_b64encode (bs : List Nat) (hv : ∀ x ∈ bs, x < 256) :
    pyB64Decode (b64encode bs) = some bs := by
  unfold pyB64Decode b64encode
  rw [if_pos, pyB64DecodeChars_encode bs hv []]
  · simp
  · simp only [String.data]
    rw [List.all_eq_true]
    intro c hc
    simpa using b64encodeList_ascii bs hv c hc

theorem pyB64DecodeChars_dataOnly :
    ∀ (cs : List Char), (∀ c ∈ cs, (b64val c).isSome = true) →
      ∀ qp left pads out, qp < 4 → (qp + cs.length) % 4 ≠ 0 →
        pyB64DecodeChars cs qp left pads out = none := by
  intro cs
  induction cs with
  | nil =>
    intro _ qp left pads out hqp hmod
    simp only [pyB64DecodeChars]
    rw [if_neg]
    simp only [List.length_nil] at hmod
    omega
  | cons c rest ih =>
    intro hall qp left pads out hqp hmod
    have hc := hall c (List.mem_cons_self c rest)
    have hne : c ≠ '=' := by
      intro he
      rw [he, b64val_pad] at hc
      simp at hc
    obtain ⟨v, hv⟩ := Option.isSome_iff_exists.mp hc
    have hall' : ∀ x ∈ rest, (b64val x).isSome = true :=
      fun x hx => hall x (List.mem_cons_of_mem c hx)
    simp only [List.length_cons] at hmod
    simp only [pyB64DecodeChars, if_neg hne, hv]
    interval_cases qp
    · exact ih hall' 1 v 0 out (by omega) (by omega)
    · exact ih hall' 2 (v % 16) 0 _ (by omega) (by omega)
    · exact ih hall' 3 (v % 4) 0 _ (by omega) (by omega)
    · exact ih hall' 0 0 0 _ (by omega) (by omega)

theorem decode_image_data_badPadding (s : String)
    (hall : ∀ c ∈ s.data, (b64val c).isSome = true)
    (hlen : s.data.length % 4 ≠ 0) :
    decode_image_data (Node.str s) = none := by
  show pyB64Decode s = none
  unfold pyB64Decode
  rw [if_pos]
  · exact pyB64DecodeChars_dataOnly s.data hall 0 0 0 [] (by omega) (by simpa using hlen)
  · rw [List.all_eq_true]
    intro c hc
    simpa using b64val_isSome_ascii c (hall c hc)

theorem b64encodeList_ne_nil (b : List Nat) (hb : b ≠ []) : b64encodeList b ≠ [] := by
  match b with
  | [] => exact absurd rfl hb
  | [a] => simp [b64encodeList]
  | [a, x] => simp [b64encodeList]
  | a :: x :: y :: rest => simp [b64encodeList]

theorem b64encode_ne_empty (b : List Nat) (hb : b ≠ []) : b64encode b ≠ "" := by
  intro hc
  have hdata : (b64encode b).data = "".data := by rw [hc]
  simp only [b64encode, String.data] at hdata
  exact b64encodeList_ne_nil b hb hdata

/-! ## Step equations for the extractor loop -/

theorem steps_empty_queue (h : Heap) (fuel : Nat) (vis : Finset Nat) :
    collectSteps h (fuel + 1) [] vis = some none := by
  simp [collectSteps]

theorem steps_dangling (h : Heap) (fuel r : Nat) (rest : List Ref) (vis : Finset Nat)
    (hf : heapFind h r = none) :
    collectSteps h (fuel + 1) (r :: rest) vis = collectSteps h fuel rest vis := by
  simp [collectSteps, hf]

theorem steps_none_node (h : Heap) (fuel r : Nat) (rest : List Ref) (vis : Finset Nat)
    (hf : heapFind h r = some Node.nil) :
    collectSteps h (fuel + 1) (r :: rest) vis = collectSteps h fuel rest vis := by
  simp [collectSteps, hf]

theorem steps_bytes_empty (h : Heap) (fuel r : Nat) (rest : List Ref) (vis : Finset Nat)
    (hf : heapFind h r = some (Node.bytes [])) :
    collectSteps h (fuel + 1) (r :: rest) vis = collectSteps h fuel rest vis := by
  simp [collectSteps, hf]

theorem steps_bytes_hit (h : Heap) (fuel r : Nat) (rest : List Ref) (vis : Finset Nat)
    (b : List Nat) (hf : heapFind h r = some (Node.bytes b)) (hb : b ≠ []) :
    collectSteps h (fuel + 1) (r :: rest) vis = some (some b) := by
  simp [collectSteps, hf, hb]

theorem steps_str_noqual (h : Heap) (fuel r : Nat) (rest : List Ref) (vis : Finset Nat)
    (s : String) (hf : heapFind h r = some (Node.str s))
    (hcond : ¬(80 < (pyStrip s).length ∧ base64Shaped (pyStrip s) = true)) :
    collectSteps h (fuel + 1) (r :: rest) vis = collectSteps h fuel rest vis := by
  simp [collectSteps, hf, hcond]

theorem steps_str_nodecode (h : Heap) (fuel r : Nat) (rest : List Ref) (vis : Finset Nat)
    (s : String) (hf : heapFind h r = some (Node.str s))
    (htb : truthyB (decode_image_data (Node.str (pyStrip s))) = none) :
    collectSteps h (fuel + 1) (r :: rest) vis = collectSteps h fuel rest vis := by
  by_cases hcond : 80 < (pyStrip s).length ∧ base64Shaped (pyStrip s) = true
  · simp [collectSteps, hf, hcond, htb]
  · simp [collectSteps, hf, hcond]

theorem steps_str_hit (h : Heap) (fuel r : Nat) (rest : List Ref) (vis : Finset Nat)
    (s : String) (d : List Nat) (hf : heapFind h r = some (Node.str s))
    (hcond : 80 < (pyStrip s).length ∧ base64Shaped (pyStrip s) = true)
    (htb : truthyB (decode_image_data (Node.str (pyStrip s))) = some d) :
    collectSteps h (fuel + 1) (r :: rest) vis = some (some d) := by
  simp [collectSteps, hf, hcond, htb]

theorem steps_dict_visited (h : Heap) (fuel r : Nat) (rest : List Ref) (vis : Finset Nat)
    (fields : List (String × Ref)) (hf : heapFind h r = some (Node.dict fields))
    (hvis : r ∈ vis) :
    collectSteps h (fuel + 1) (r :: rest) vis = collectSteps h fuel rest vis := by
  simp [collectSteps, hf, hvis]

theorem steps_dict_hit (h : Heap) (fuel r : Nat) (rest : List Ref) (vis : Finset Nat)
    (fields : List (String × Ref)) (b : List Nat)
    (hf : heapFind h r = some (Node.dict fields)) (hvis : r ∉ vis)
    (hd : dictHit h fields = some b) :
    collectSteps h (fuel + 1) (r :: rest) vis = some (some b) := by
  simp [collectSteps, hf, hvis, hd]

theorem steps_dict_cont (h : Heap) (fuel r : Nat) (rest : List Ref) (vis : Finset Nat)
    (fields : List (String × Ref))
    (hf : heapFind h r = some (Node.dict fields)) (hvis : r ∉ vis)
    (hd : dictHit h fields = none) :
    collectSteps h (fuel + 1) (r :: rest) vis =
      collectSteps h fuel (rest ++ fields.map Prod.snd) (insert r vis) := by
  simp [collectSteps, hf, hvis, hd]

theorem steps_obj_visited (h : Heap) (fuel r : Nat) (rest : List Ref) (vis : Finset Nat)
    (attrs : List (String × Ref)) (hf : heapFind h r = some (Node.obj attrs))
    (hvis : r ∈ vis) :
    collectSteps h (fuel + 1) (r :: rest) vis = collectSteps h fuel rest vis := by
  simp [collectSteps, hf, hvis]

theorem steps_obj_hit (h : Heap) (fuel r : Nat) (rest : List Ref) (vis : Finset Nat)
    (attrs : List (String × Ref)) (b : List Nat)
    (hf : heapFind h r = some (Node.obj attrs)) (hvis : r ∉ vis)
    (hd : objHit h attrs = some b) :
    collectSteps h (fuel + 1) (r :: rest) vis = some (some b) := by
  simp [collectSteps, hf, hvis, hd]

theorem steps_obj_cont (h : Heap) (fuel r : Nat) (rest : List Ref) (vis : Finset Nat)
    (attrs : List (String × Ref))
    (hf : heapFind h r = some (Node.obj attrs)) (hvis : r ∉ vis)
    (hd : objHit h attrs = none) :
    collectSteps h (fuel + 1) (r :: rest) vis =
      collectSteps h fuel (rest ++ objEnqueue h attrs) (insert r vis) := by
  simp [collectSteps, hf, hvis, hd]

theorem steps_list_visited (h : Heap) (fuel r : Nat) (rest : List Ref) (vis : Finset Nat)
    (elems : List Ref) (hf : heapFind h r = some (Node.list elems))
    (hvis : r ∈ vis) :
    collectSteps h (fuel + 1) (r :: rest) vis = collectSteps h fuel rest vis := by
  simp [collectSteps, hf, hvis]

theorem steps_list_cont (h : Heap) (fuel r : Nat) (rest : List Ref) (vis : Finset Nat)
    (elems : List Ref) (hf : heapFind h r = some (Node.list elems))
    (hvis : r ∉ vis) :
    collectSteps h (fuel + 1) (r :: rest) vis =
      collectSteps h fuel (rest ++ elems) (insert r vis) := by
  simp [collectSteps, hf, hvis]

/-! ## Fuel monotonicity and sufficiency -/

theorem heapFind_mem_dom (h : Heap) (r : Ref) (n : Node) (hf : heapFind h r = some n) :
    r ∈ heapDom h := by
  unfold heapFind at hf
  cases hfind : h.find? (fun p => p.1 == r) with
  | none => rw [hfind] at hf; simp at hf
  | some pr =>
    have hmem := List.mem_of_find?_eq_some hfind
    have hpred := List.find?_some hfind
    have hr : pr.1 = r := by simpa using hpred
    unfold heapDom
    rw [List.mem_toFinset, List.mem_map]
    exact ⟨pr, hmem, hr⟩

theorem potential_visit (h : Heap) (vis : Finset Nat) (r : Nat) (n : Node)
    (hf : heapFind h r = some n) (hcomp : n.isComposite = true) (hvis : r ∉ vis) :
    potential h vis = (nodeEnqueue h n).length + potential h (insert r vis) := by
  have hdom : r ∈ compositeDom h := by
    unfold compositeDom
    rw [Finset.mem_filter]
    refine ⟨heapFind_mem_dom h r n hf, ?_⟩
    unfold isCompositeAt
    rw [hf]
    exact hcomp
  have hsd : compositeDom h \ vis = insert r (compositeDom h \ insert r vis) := by
    ext x
    simp only [Finset.mem_sdiff, Finset.mem_insert]
    constructor
    · rintro ⟨hx, hxv⟩
      by_cases hxr : x = r
      · exact Or.inl hxr
      · exact Or.inr ⟨hx, fun hc => hc.elim hxr hxv⟩
    · rintro (rfl | ⟨hx, hxiv⟩)
      · exact ⟨hdom, hvis⟩
      · exact ⟨hx, fun hc => hxiv (Or.inr hc)⟩
  have hnotmem : r ∉ compositeDom h \ insert r vis := by
    simp [Finset.mem_sdiff]
  unfold potential
  rw [hsd, Finset.sum_insert hnotmem]
  congr 1
  unfold childCount
  rw [hf]

theorem collectSteps_mono (h : Heap) :
    ∀ f f', f ≤ f' → ∀ q vis x, collectSteps h f q vis = some x →
      collectSteps h f' q vis = some x := by
  intro f
  induction f with
  | zero =>
    intro f' _ q vis x hx
    simp [collectSteps] at hx
  | succ n ih =>
    intro f' hle q vis x hx
    obtain ⟨m, rfl⟩ : ∃ m, f' = m + 1 := ⟨f' - 1, by omega⟩
    have hnm : n ≤ m := by omega
    cases q with
    | nil =>
      rw [steps_empty_queue] at hx ⊢
      exact hx
    | cons r rest =>
      cases hfind : heapFind h r with
      | none =>
        rw [steps_dangling h _ r rest vis hfind] at hx ⊢
        exact ih m hnm rest vis x hx
      | some node =>
        cases node with
        | nil =>
          rw [steps_none_node h _ r rest vis hfind] at hx ⊢
          exact ih m hnm rest vis x hx
        | bytes b =>
          by_cases hb : b = []
          · subst hb
            rw [steps_bytes_empty h _ r rest vis hfind] at hx ⊢
            exact ih m hnm rest vis x hx
          · rw [steps_bytes_hit h _ r rest vis b hfind hb] at hx ⊢
            exact hx
        | str s =>
          by_cases hcond : 80 < (pyStrip s).length ∧ base64Shaped (pyStrip s) = true
          · cases htb : truthyB (decode_image_data (Node.str (pyStrip s))) with
            | none =>
              rw [steps_str_nodecode h _ r rest vis s hfind htb] at hx ⊢
              exact ih m hnm rest vis x hx
            | some d =>
              rw [steps_str_hit h _ r rest vis s d hfind hcond htb] at hx ⊢
              exact hx
          · rw [steps_str_noqual h _ r rest vis s hfind hcond] at hx ⊢
            exact ih m hnm rest vis x hx
        | dict fields =>
          by_cases hvis : r ∈ vis
          · rw [steps_dict_visited h _ r rest vis fields hfind hvis] at hx ⊢
            exact ih m hnm rest vis x hx
          · cases hd : dictHit h fields with
            | some b =>
              rw [steps_dict_hit h _ r rest vis fields b hfind hvis hd] at hx ⊢
              exact hx
            | none =>
              rw [steps_dict_cont h _ r rest vis fields hfind hvis hd] at hx ⊢
              exact ih m hnm _ _ x hx
        | obj attrs =>
          by_cases hvis : r ∈ vis
          · rw [steps_obj_visited h _ r rest vis attrs hfind hvis] at hx ⊢
            exact ih m hnm rest vis x hx
          · cases hd : objHit h attrs with
            | some b =>
              rw [steps_obj_hit h _ r rest vis attrs b hfind hvis hd] at hx ⊢
              exact hx
            | none =>
              rw [steps_obj_cont h _ r rest vis attrs hfind hvis hd] at hx ⊢
              exact ih m hnm _ _ x hx
        | list elems =>
          by_cases hvis : r ∈ vis
          · rw [steps_list_visited h _ r rest vis elems hfind hvis] at hx ⊢
            exact ih m hnm rest vis x hx
          · rw [steps_list_cont h _ r rest vis elems hfind hvis] at hx ⊢
            exact ih m hnm _ _ x hx

theorem collectSteps_sufficient (h : Heap) :
    ∀ fuel q vis, q.length + potential h vis < fuel →
      collectSteps h fuel q vis ≠ none := by
  intro fuel
  induction fuel with
  | zero =>
    intro q vis hlt
    exact absurd hlt (Nat.not_lt_zero _)
  | succ n ih =>
    intro q vis hlt
    cases q with
    | nil =>
      rw [steps_empty_queue]
      simp
    | cons r rest =>
      simp only [List.length_cons] at hlt
      cases hfind : heapFind h r with
      | none =>
        rw [steps_dangling h n r rest vis hfind]
        exact ih rest vis (by omega)
      | some node =>
        cases node with
        | nil =>
          rw [steps_none_node h n r rest vis hfind]
          exact ih rest vis (by omega)
        | bytes b =>
          by_cases hb : b = []
          · subst hb
            rw [steps_bytes_empty h n r rest vis hfind]
            exact ih rest vis (by omega)
          · rw [steps_bytes_hit h n r rest vis b hfind hb]
            simp
        | str s =>
          by_cases hcond : 80 < (pyStrip s).length ∧ base64Shaped (pyStrip s) = true
          · cases htb : truthyB (decode_image_data (Node.str (pyStrip s))) with
            | none =>
              rw [steps_str_nodecode h n r rest vis s hfind htb]
              exact ih rest vis (by omega)
            | some d =>
              rw [steps_str_hit h n r rest vis s d hfind hcond htb]
              simp
          · rw [steps_str_noqual h n r rest vis s hfind hcond]
            exact ih rest vis (by omega)
        | dict fields =>
          by_cases hvis : r ∈ vis
          · rw [steps_dict_visited h n r rest vis fields hfind hvis]
            exact ih rest vis (by omega)
          · cases hd : dictHit h fields with
            | some b =>
              rw [steps_dict_hit h n r rest vis fields b hfind hvis hd]
              simp
            | none =>
              rw [steps_dict_cont h n r rest vis fields hfind hvis hd]
              apply ih
              have hpot := potential_visit h vis r (Node.dict fields) hfind rfl hvis
              simp only [nodeEnqueue, List.length_map] at hpot
              rw [List.length_append, List.length_map]
              omega
        | obj attrs =>
          by_cases hvis : r ∈ vis
          · rw [steps_obj_visited h n r rest vis attrs hfind hvis]
            exact ih rest vis (by omega)
          · cases hd : objHit h attrs with
            | some b =>
              rw [steps_obj_hit h n r rest vis attrs b hfind hvis hd]
              simp
            | none =>
              rw [steps_obj_cont h n r rest vis attrs hfind hvis hd]
              apply ih
              have hpot := potential_visit h vis r (Node.obj attrs) hfind rfl hvis
              simp only [nodeEnqueue] at hpot
              rw [List.length_append]
              omega
        | list elems =>
          by_cases hvis : r ∈ vis
          · rw [steps_list_visited h n r rest vis elems hfind hvis]
            exact ih rest vis (by omega)
          · rw [steps_list_cont h n r rest vis elems hfind hvis]
            apply ih
            have hpot := potential_visit h vis r (Node.list elems) hfind rfl hvis
            simp only [nodeEnqueue] at hpot
            rw [List.length_append]
            omega

/-! ## Transfer between the fuelled loop and `collectLoop` -/

theorem collectLoop_eq_of_steps (h : Heap) (q : List Ref) (vis : Finset Nat) (f : Nat)
    (x : Option (List Nat)) (hx : collectSteps h f q vis = some x) :
    collectLoop h q vis = x := by
  have hne := collectSteps_sufficient h (q.length + potential h vis + 1) q vis (by omega)
  obtain ⟨y, hy⟩ := Option.ne_none_iff_exists'.mp hne
  have h1 := collectSteps_mono h f (max f (q.length + potential h vis + 1))
    (le_max_left _ _) q vis x hx
  have h2 := collectSteps_mono h (q.length + potential h vis + 1)
    (max f (q.length + potential h vis + 1)) (le_max_right _ _) q vis y hy
  rw [h1] at h2
  unfold collectLoop
  rw [hy]
  simp only [Option.getD_some]
  exact (Option.some.inj h2).symm

theorem collectLoop_exists_steps (h : Heap) (q : List Ref) (vis : Finset Nat) :
    ∃ f, collectSteps h f q vis = some (collectLoop h q vis) := by
  have hne := collectSteps_sufficient h (q.length + potential h vis + 1) q vis (by omega)
  obtain ⟨y, hy⟩ := Option.ne_none_iff_exists'.mp hne
  exact ⟨q.length + potential h vis + 1, by
    rw [hy, collectLoop_eq_of_steps h q vis _ y hy]⟩

/-! ## The extractor never returns empty bytes -/

theorem truthyB_some_ne (o : Option (List Nat)) (b : List Nat) (h : truthyB o = some b) :
    b ≠ [] := by
  cases o with
  | none => simp [truthyB] at h
  | some c =>
    by_cases hc : c = []
    · simp [truthyB, hc] at h
    · simp only [truthyB, if_neg hc] at h
      rw [← Option.some.inj h]
      exact hc

theorem maybeFileData_ne (h : Heap) (n : Node) (b : List Nat)
    (hm : maybeFileData h n = some b) : b ≠ [] := by
  unfold maybeFileData at hm
  cases hfd : fileDataFieldOf n with
  | none =>
    simp only [hfd] at hm
    exact Option.noConfusion hm
  | some fr =>
    simp only [hfd] at hm
    cases hfn : heapFind h fr with
    | none =>
      simp only [hfn] at hm
      exact Option.noConfusion hm
    | some fn =>
      simp only [hfn] at hm
      by_cases ht : truthy fn = true
      · rw [if_pos ht] at hm
        exact truthyB_some_ne _ _ hm
      · rw [if_neg ht] at hm
        exact absurd hm (by simp)

theorem firstKeyHit_ne (h : Heap) :
    ∀ l b, firstKeyHit h l = some b → b ≠ [] := by
  intro l
  induction l with
  | nil => intro b hb; simp [firstKeyHit] at hb
  | cons p rest ih =>
    intro b hb
    obtain ⟨k, vr⟩ := p
    simp only [firstKeyHit] at hb
    by_cases hk : k = "data" ∨ k = "image" ∨ k = "blob"
    · rw [if_pos hk] at hb
      cases htb : truthyB (decodeORef h (some vr)) with
      | some c =>
        rw [htb] at hb
        rw [← Option.some.inj hb]
        exact truthyB_some_ne _ _ htb
      | none =>
        rw [htb] at hb
        exact ih b hb
    · rw [if_neg hk] at hb
      exact ih b hb

theorem dictHit_ne (h : Heap) (fields : List (String × Ref)) (b : List Nat)
    (hd : dictHit h fields = some b) : b ≠ [] := by
  unfold dictHit at hd
  cases h1 : truthyB (handleInline h (assocFind fields "inline_data")) with
  | some c =>
    simp only [h1] at hd
    rw [← Option.some.inj hd]
    exact truthyB_some_ne _ _ h1
  | none =>
    simp only [h1] at hd
    cases h2 : maybeFileData h (Node.dict fields) with
    | some c =>
      simp only [h2] at hd
      rw [← Option.some.inj hd]
      exact maybeFileData_ne h _ c h2
    | none =>
      simp only [h2] at hd
      exact firstKeyHit_ne h fields b hd

theorem objHit_ne (h : Heap) (attrs : List (String × Ref)) (b : List Nat)
    (hd : objHit h attrs = some b) : b ≠ [] := by
  unfold objHit at hd
  cases h1 : truthyB (handleInline h (assocFind attrs "inline_data")) with
  | some c =>
    simp only [h1] at hd
    rw [← Option.some.inj hd]
    exact truthyB_some_ne _ _ h1
  | none =>
    simp only [h1] at hd
    exact maybeFileData_ne h _ b hd

theorem collectSteps_result_ne (h : Heap) :
    ∀ fuel q vis b, collectSteps h fuel q vis = some (some b) → b ≠ [] := by
  intro fuel
  induction fuel with
  | zero =>
    intro q vis b hb
    simp [collectSteps] at hb
  | succ n ih =>
    intro q vis b hb
    cases q with
    | nil =>
      rw [steps_empty_queue] at hb
      simp at hb
    | cons r rest =>
      cases hfind : heapFind h r with
      | none =>
        rw [steps_dangling h n r rest vis hfind] at hb
        exact ih rest vis b hb
      | some node =>
        cases node with
        | nil =>
          rw [steps_none_node h n r rest vis hfind] at hb
          exact ih rest vis b hb
        | bytes b0 =>
          by_cases hb0 : b0 = []
          · subst hb0
            rw [steps_bytes_empty h n r rest vis hfind] at hb
            exact ih rest vis b hb
          · rw [steps_bytes_hit h n r rest vis b0 hfind hb0] at hb
            have := Option.some.inj (Option.some.inj hb)
            rw [← this]
            exact hb0
        | str s =>
          by_cases hcond : 80 < (pyStrip s).length ∧ base64Shaped (pyStrip s) = true
          · cases htb : truthyB (decode_image_data (Node.str (pyStrip s))) with
            | none =>
              rw [steps_str_nodecode h n r rest vis s hfind htb] at hb
              exact ih rest vis b hb
            | some d =>
              rw [steps_str_hit h n r rest vis s d hfind hcond htb] at hb
              have := Option.some.inj (Option.some.inj hb)
              rw [← this]
              exact truthyB_some_ne _ _ htb
          · rw [steps_str_noqual h n r rest vis s hfind hcond] at hb
            exact ih rest vis b hb
        | dict fields =>
          by_cases hvis : r ∈ vis
          · rw [steps_dict_visited h n r rest vis fields hfind hvis] at hb
            exact ih rest vis b hb
          · cases hd : dictHit h fields with
            | some c =>
              rw [steps_dict_hit h n r rest vis fields c hfind hvis hd] at hb
              have := Option.some.inj (Option.some.inj hb)
              rw [← this]
              exact dictHit_ne h fields c hd
            | none =>
              rw [steps_dict_cont h n r rest vis fields hfind hvis hd] at hb
              exact ih _ _ b hb
        | obj attrs =>
          by_cases hvis : r ∈ vis
          · rw [steps_obj_visited h n r rest vis attrs hfind hvis] at hb
            exact ih rest vis b hb
          · cases hd : objHit h attrs with
            | some c =>
              rw [steps_obj_hit h n r rest vis attrs c hfind hvis hd] at hb
              have := Option.some.inj (Option.some.inj hb)
              rw [← this]
              exact objHit_ne h attrs c hd
            | none =>
              rw [steps_obj_cont h n r rest vis attrs hfind hvis hd] at hb
              exact ih _ _ b hb
        | list elems =>
          by_cases hvis : r ∈ vis
          · rw [steps_list_visited h n r rest vis elems hfind hvis] at hb
            exact ih rest vis b hb
          · rw [steps_list_cont h n r rest vis elems hfind hvis] at hb
            exact ih _ _ b hb

/-! ## Helper lemmas for the claims -/

theorem collectLoop_skip (h : Heap) (r : Ref) (rest : List Ref) (vis : Finset Nat)
    (hstep : ∀ fuel, collectSteps h (fuel + 1) (r :: rest) vis = collectSteps h fuel rest vis) :
    collectLoop h (r :: rest) vis = collectLoop h rest vis := by
  obtain ⟨f, hf⟩ := collectLoop_exists_steps h rest vis
  have hstepf := hstep f
  rw [hf] at hstepf
  exact collectLoop_eq_of_steps h (r :: rest) vis (f + 1) _ hstepf

theorem deserialize_serialize_entry_some (e : HistoryEntry) (b : List Nat)
    (himg : e.image_bytes = some b) (hb : b ≠ []) (hv : ∀ x ∈ b, x < 256) :
    deserializeEntry (serializeEntry e) = e := by
  cases e with
  | mk i p m nt img =>
    simp only [HistoryEntry.image_bytes] at himg
    subst himg
    simp only [serializeEntry, deserializeEntry, HistoryEntry.mk.injEq, true_and]
    rw [if_neg (b64encode_ne_empty b hb)]
    show pyB64Decode (b64encode b) = some b
    exact pyB64Decode_b64encode b hv

theorem deserialize_serialize_entry_none (e : HistoryEntry)
    (himg : e.image_bytes = none) :
    deserializeEntry (serializeEntry e) = e := by
  cases e with
  | mk i p m nt img =>
    simp only [HistoryEntry.image_bytes] at himg
    subst himg
    simp [serializeEntry, deserializeEntry]

theorem charSanitize_good (c0 c : Char) (hc : c ∈ charSanitize c0) :
    c ∉ pathUnsafeChars ∧ 32 ≤ c.toNat := by
  unfold charSanitize at hc
  split_ifs at hc with h1 h2 h3 h4
  · simp only [List.mem_cons, List.not_mem_nil, or_false] at hc
    rcases hc with rfl | rfl | rfl
    · exact ⟨by decide, by decide⟩
    · exact ⟨by decide, by decide⟩
    · exact ⟨by decide, by decide⟩
  · simp at hc
  · simp at hc
  · simp only [List.mem_cons, List.not_mem_nil, or_false] at hc
    subst hc
    exact ⟨by decide, by decide⟩
  · simp only [List.mem_cons, List.not_mem_nil, or_false] at hc
    subst hc
    exact ⟨h3, by omega⟩

theorem mem_of_stripUnderscores (cs : List Char) (c : Char)
    (hc : c ∈ stripUnderscores cs) : c ∈ cs := by
  unfold stripUnderscores at hc
  rw [List.mem_reverse] at hc
  have hc2 := (List.dropWhile_sublist _).subset hc
  rw [List.mem_reverse] at hc2
  exact (List.dropWhile_sublist _).subset hc2

theorem sanitize_component_chars (v : String) (maxLength : Nat) :
    ∀ c ∈ (sanitize_filename_component v maxLength).data, c ∉ pathUnsafeChars ∧ 32 ≤ c.toNat := by
  intro c hc
  have hdata : (sanitize_filename_component v maxLength).data =
      (if sanitizeStripped v = [] then "prompt".data else sanitizeStripped v).take maxLength := rfl
  rw [hdata] at hc
  have hc2 := List.mem_of_mem_take hc
  by_cases hemp : sanitizeStripped v = []
  · rw [if_pos hemp] at hc2
    have hall : ∀ x ∈ "prompt".data, x ∉ pathUnsafeChars ∧ 32 ≤ x.toNat := by decide
    exact hall c hc2
  · rw [if_neg hemp] at hc2
    have hc3 : c ∈ v.data.flatMap charSanitize := mem_of_stripUnderscores _ c hc2
    obtain ⟨c0, _, hcc⟩ := List.mem_flatMap.mp hc3
    exact charSanitize_good c0 c hcc

theorem sanitize_component_length (v : String) :
    (sanitize_filename_component v 80).data.length ≤ 80 := by
  have hdata : (sanitize_filename_component v 80).data =
      (if sanitizeStripped v = [] then "prompt".data else sanitizeStripped v).take 80 := rfl
  rw [hdata]
  exact List.length_take_le 80 _

theorem sanitize_component_ne_empty (v : String) :
    sanitize_filename_component v 80 ≠ "" := by
  intro hcon
  have hdata : ((if sanitizeStripped v = [] then "prompt".data
      else sanitizeStripped v).take 80) = [] := congrArg String.data hcon
  by_cases hemp : sanitizeStripped v = []
  · rw [if_pos hemp] at hdata
    exact absurd hdata (by decide)
  · rw [if_neg hemp] at hdata
    rw [List.take_eq_nil_iff] at hdata
    rcases hdata with h80 | hnil
    · exact absurd h80 (by decide)
    · exact hemp hnil

theorem sanitize_component_fallback (v : String) (hemp : sanitizeStripped v = []) :
    sanitize_filename_component v 80 = "prompt" := by
  unfold sanitize_filename_component
  rw [if_pos hemp]
  rfl

/-! ## Claim theorems -/

/-- Claim C2: for every finite response object graph, including graphs with
cyclic references, the `collect_image_bytes` while-loop terminates (some
finite fuel makes the fuelled loop return) with the function's result, and
on a concrete self-referencing graph the extractor returns `null`; the
visited set of object identities guarantees composites are never processed
twice. -/
theorem collect_image_bytes_terminates :
    (∀ (h : Heap) (response : Option Ref), ∃ fuel,
      collectSteps h fuel response.toList ∅ = some (collect_image_bytes h response)) ∧
    collect_image_bytes cyclicHeap (some 0) = none := by
  constructor
  · intro h response
    exact collectLoop_exists_steps h response.toList ∅
  · have hsteps : collectSteps cyclicHeap 3 [0] ∅ = some none := by decide
    exact collectLoop_eq_of_steps cyclicHeap [0] ∅ 3 none hsteps

/-- Claim C3 counterexample: the string `"!!!"` consists solely of
characters outside the base64 alphabet (so it is not valid base64), yet
`decode_image_data` returns empty bytes rather than `null`, because
`base64.b64decode` with `validate=False` discards invalid characters. -/
theorem decode_invalid_chars_counterexample :
    ("!!!").data.all (fun c => (b64val c).isNone && (c != '=')) = true ∧
    decode_image_data (Node.str "!!!") = some [] := by
  constructor
  · decide
  · decide

/-- Claim C3 (amended): for every string of base64-alphabet data
characters whose count is not a multiple of four (bad padding),
`decode_image_data` returns `null`; the function is total, so it never
raises.  (Strings with invalid characters are NOT guaranteed to return
`null`: invalid characters are discarded by the decoder.) -/
theorem decode_image_data_null_on_bad_padding (s : String)
    (hall : ∀ c ∈ s.data, (b64val c).isSome = true)
    (hlen : s.data.length % 4 ≠ 0) :
    decode_image_data (Node.str s) = none :=
  decode_image_data_badPadding s hall hlen

theorem decode_image_data_null_on_bad_padding_witness :
    (∀ c ∈ ("abc").data, (b64val c).isSome = true) ∧ ("abc").data.length % 4 ≠ 0 ∧
    decode_image_data (Node.str "abc") = none :=
  ⟨by decide, by decide,
    decode_image_data_null_on_bad_padding "abc" (by decide) (by decide)⟩

/-- Claim C4: serializing a history of two entries — one with (valid,
non-empty) image bytes, one with no image — and deserializing it yields
the original entries, equal in id, prompt, model, no_text and image
bytes. -/
theorem history_roundtrip (e1 e2 : HistoryEntry) (b : List Nat)
    (h1 : e1.image_bytes = some b) (hb : b ≠ []) (hv : ∀ x ∈ b, x < 256)
    (h2 : e2.image_bytes = none) :
    _deserialize_history (_serialize_history [e1, e2]) = [e1, e2] := by
  simp only [_serialize_history, _deserialize_history, List.map]
  rw [deserialize_serialize_entry_some e1 b h1 hb hv,
    deserialize_serialize_entry_none e2 h2]

theorem history_roundtrip_witness :
    (⟨some "id1", some "p1", some "m", some true, some [7, 200]⟩ :
        HistoryEntry).image_bytes = some [7, 200] ∧
    ([7, 200] : List Nat) ≠ [] ∧ (∀ x ∈ ([7, 200] : List Nat), x < 256) ∧
    (⟨some "id2", some "p2", some "m", some true, none⟩ :
        HistoryEntry).image_bytes = none ∧
    _deserialize_history (_serialize_history
      [⟨some "id1", some "p1", some "m", some true, some [7, 200]⟩,
       ⟨some "id2", some "p2", some "m", some true, none⟩]) =
      [⟨some "id1", some "p1", some "m", some true, some [7, 200]⟩,
       ⟨some "id2", some "p2", some "m", some true, none⟩] :=
  ⟨rfl, by decide, by decide, rfl,
    history_roundtrip _ _ _ rfl (by decide) (by decide) rfl⟩

/-- Claim C5: appending E1 then E2 to an empty history store (each via
`insert(0, entry)`) yields the order `[E2, E1]` — newest first. -/
theorem history_insert_order (e1 e2 : HistoryEntry) :
    historyInsertFront (historyInsertFront [] e1) e2 = [e2, e1] := rfl

/-- Claim C7: decoding the standard base64 encoding of any byte sequence
yields exactly that sequence: `decode(encode(b)) == b`. -/
theorem decode_encode_roundtrip (b : List Nat) (hv : ∀ x ∈ b, x < 256) :
    decode_image_data (Node.str (b64encode b)) = some b :=
  pyB64Decode_b64encode b hv

theorem decode_encode_roundtrip_witness :
    (∀ x ∈ ([0, 100, 255] : List Nat), x < 256) ∧
    decode_image_data (Node.str (b64encode [0, 100, 255])) = some [0, 100, 255] :=
  ⟨by decide, decode_encode_roundtrip [0, 100, 255] (by decide)⟩

/-- Claim C8: for every prompt the sanitized filename component contains
no path-unsafe character and no control character, is at most 80
characters long, is never empty, and falls back to the literal `prompt`
when sanitisation leaves nothing; the specific prompt
`"a/b\c:d*e?f"` with a newline sanitizes to `"abcdef-n-end"`, with the
literal newline marker and none of the stripped characters. -/
theorem sanitize_filename_props :
    (∀ v : String,
        (∀ c ∈ (sanitize_filename_component v 80).data,
          c ∉ pathUnsafeChars ∧ 32 ≤ c.toNat) ∧
        (sanitize_filename_component v 80).data.length ≤ 80 ∧
        sanitize_filename_component v 80 ≠ "" ∧
        (sanitizeStripped v = [] → sanitize_filename_component v 80 = "prompt")) ∧
    sanitize_filename_component "a/b\\c:d*e?f\nend" 80 = "abcdef-n-end" := by
  constructor
  · intro v
    exact ⟨sanitize_component_chars v 80, sanitize_component_length v,
      sanitize_component_ne_empty v, sanitize_component_fallback v⟩
  · decide

theorem sanitize_filename_props_witness :
    sanitizeStripped "///" = [] ∧ sanitize_filename_component "///" 80 = "prompt" :=
  ⟨by decide, ((sanitize_filename_props.1 "///").2.2.2) (by decide)⟩

/-- Claim C9: the extractor never returns empty bytes — its result is
`null` or a non-empty byte sequence, because empty raw buffers are
skipped and decoded candidates are returned only when truthy. -/
theorem collect_image_bytes_never_empty (h : Heap) (response : Option Ref) :
    collect_image_bytes h response = none ∨
      ∃ b, collect_image_bytes h response = some b ∧ b ≠ [] := by
  cases hc : collect_image_bytes h response with
  | none => exact Or.inl rfl
  | some b =>
    refine Or.inr ⟨b, rfl, ?_⟩
    obtain ⟨f, hf⟩ := collectLoop_exists_steps h response.toList ∅
    have hc' : collectLoop h response.toList ∅ = some b := hc
    rw [hc'] at hf
    exact collectSteps_result_ne h f response.toList ∅ b hf

/-- Claim C10: an entry whose image is the empty byte string serializes
its image to the empty base64 string, and deserializing yields `null`
(no image), not empty bytes. -/
theorem empty_image_roundtrip_null (e : HistoryEntry) (h : e.image_bytes = some []) :
    (serializeEntry e).image_b64 = some "" ∧
    (deserializeEntry (serializeEntry e)).image_bytes = none := by
  have h1 : (serializeEntry e).image_b64 = some (b64encode []) := by
    simp [serializeEntry, h]
  constructor
  · rw [h1]
    decide
  · simp only [deserializeEntry, h1]
    decide

theorem empty_image_roundtrip_null_witness :
    (⟨none, none, none, none, some []⟩ : HistoryEntry).image_bytes = some [] ∧
    ((serializeEntry ⟨none, none, none, none, some []⟩).image_b64 = some "" ∧
     (deserializeEntry (serializeEntry
       (⟨none, none, none, none, some []⟩ : HistoryEntry))).image_bytes = none) :=
  ⟨rfl, empty_image_roundtrip_null _ rfl⟩

/-- Claim C6: a string candidate (the stripped string, `candidate` in the
code) is treated as a possible embedded image only if it is longer than
80 characters and all its characters lie in the base64 alphabet
(letters, digits, `+`, `/`, `=`, line breaks); a string failing this
test is skipped outright — the loop result is as if it were not in the
queue, so it is never decoded and never traversed further.  In
particular a 50-character base64-looking string is never treated as
image data. -/
theorem collect_skips_nonqualifying_strings
    (h : Heap) (r : Ref) (rest : List Ref) (vis : Finset Nat) (s : String)
    (hf : heapFind h r = some (Node.str s))
    (hcond : ¬(80 < (pyStrip s).length ∧ base64Shaped (pyStrip s) = true)) :
    collectLoop h (r :: rest) vis = collectLoop h rest vis :=
  collectLoop_skip h r rest vis
    (fun fuel => steps_str_noqual h fuel r rest vis s hf hcond)

theorem collect_skips_nonqualifying_strings_witness :
    heapFind str50Heap 0 = some (Node.str str50) ∧
    ¬(80 < (pyStrip str50).length ∧ base64Shaped (pyStrip str50) = true) ∧
    collectLoop str50Heap [0] ∅ = collectLoop str50Heap [] ∅ :=
  ⟨rfl, by decide,
    collect_skips_nonqualifying_strings str50Heap 0 [] ∅ str50 rfl (by decide)⟩

/-- Claim C1: for a response whose only image payload is an
`inline_data.data` field holding valid base64 bytes three levels below
the root among unrelated sibling fields, `collect_image_bytes` returns
exactly the decoded bytes; and when two inline payloads are present, the
first one in the breadth-first traversal order is returned (the result
is a function of the response shape, hence deterministic). -/
theorem collect_inline_data_first (s s1 s2 : String) (b b1 b2 : List Nat)
    (hs : pyB64Decode s = some b) (hb : b ≠ [])
    (hs1 : pyB64Decode s1 = some b1) (hb1 : b1 ≠ [])
    (hs2 : pyB64Decode s2 = some b2) (hb2 : b2 ≠ []) :
    collect_image_bytes (inlineDeepHeap s) (some 0) = some b ∧
    collect_image_bytes (twoImagesHeap s1 s2) (some 0) = some b1 := by
  constructor
  · have hd2 : dictHit (inlineDeepHeap s)
        [("zeta", 8), ("inline_data", 3), ("eta", 9)] = some b := by
      unfold dictHit
      rw [show handleInline (inlineDeepHeap s)
          (assocFind [("zeta", 8), ("inline_data", 3), ("eta", 9)] "inline_data") =
          pyB64Decode s from rfl]
      rw [hs]
      simp [truthyB, hb]
    have e1 : collectSteps (inlineDeepHeap s) 6 [0] ∅ =
        collectSteps (inlineDeepHeap s) 5 [5, 1, 6] (insert 0 ∅) := by
      have hstep := steps_dict_cont (inlineDeepHeap s) 5 0 [] ∅
        [("alpha", 5), ("beta", 1), ("gamma", 6)] rfl (by simp) rfl
      simpa using hstep
    have e2 : collectSteps (inlineDeepHeap s) 5 [5, 1, 6] (insert 0 ∅) =
        collectSteps (inlineDeepHeap s) 4 [1, 6] (insert 0 ∅) :=
      steps_str_noqual (inlineDeepHeap s) 4 5 [1, 6] (insert 0 ∅) "ok" rfl (by decide)
    have e3 : collectSteps (inlineDeepHeap s) 4 [1, 6] (insert 0 ∅) =
        collectSteps (inlineDeepHeap s) 3 [6, 7, 2] (insert 1 (insert 0 ∅)) := by
      have hstep := steps_dict_cont (inlineDeepHeap s) 3 1 [6] (insert 0 ∅)
        [("delta", 7), ("epsilon", 2)] rfl (by decide) rfl
      simpa using hstep
    have e4 : collectSteps (inlineDeepHeap s) 3 [6, 7, 2] (insert 1 (insert 0 ∅)) =
        collectSteps (inlineDeepHeap s) 2 [7, 2] (insert 1 (insert 0 ∅)) :=
      steps_none_node (inlineDeepHeap s) 2 6 [7, 2] (insert 1 (insert 0 ∅)) rfl
    have e5 : collectSteps (inlineDeepHeap s) 2 [7, 2] (insert 1 (insert 0 ∅)) =
        collectSteps (inlineDeepHeap s) 1 [2] (insert 1 (insert 0 ∅)) :=
      steps_str_noqual (inlineDeepHeap s) 1 7 [2] (insert 1 (insert 0 ∅)) "meta"
        rfl (by decide)
    have e6 : collectSteps (inlineDeepHeap s) 1 [2] (insert 1 (insert 0 ∅)) =
        some (some b) :=
      steps_dict_hit (inlineDeepHeap s) 0 2 [] (insert 1 (insert 0 ∅))
        [("zeta", 8), ("inline_data", 3), ("eta", 9)] b rfl (by decide) hd2
    have hfin : collectSteps (inlineDeepHeap s) 6 [0] ∅ = some (some b) := by
      rw [e1, e2, e3, e4, e5, e6]
    exact collectLoop_eq_of_steps (inlineDeepHeap s) [0] ∅ 6 (some b) hfin
  · have hd2 : dictHit (twoImagesHeap s1 s2) [("note", 8), ("inline_data", 4)] = some b1 := by
      unfold dictHit
      rw [show handleInline (twoImagesHeap s1 s2)
          (assocFind [("note", 8), ("inline_data", 4)] "inline_data") =
          pyB64Decode s1 from rfl]
      rw [hs1]
      simp [truthyB, hb1]
    have f1 : collectSteps (twoImagesHeap s1 s2) 4 [0] ∅ =
        collectSteps (twoImagesHeap s1 s2) 3 [1] (insert 0 ∅) := by
      have hstep := steps_dict_cont (twoImagesHeap s1 s2) 3 0 [] ∅
        [("parts", 1)] rfl (by simp) rfl
      simpa using hstep
    have f2 : collectSteps (twoImagesHeap s1 s2) 3 [1] (insert 0 ∅) =
        collectSteps (twoImagesHeap s1 s2) 2 [2, 3] (insert 1 (insert 0 ∅)) := by
      have hstep := steps_list_cont (twoImagesHeap s1 s2) 2 1 [] (insert 0 ∅)
        [2, 3] rfl (by decide)
      simpa using hstep
    have f3 : collectSteps (twoImagesHeap s1 s2) 2 [2, 3] (insert 1 (insert 0 ∅)) =
        some (some b1) :=
      steps_dict_hit (twoImagesHeap s1 s2) 1 2 [3] (insert 1 (insert 0 ∅))
        [("note", 8), ("inline_data", 4)] b1 rfl (by decide) hd2
    have hfin : collectSteps (twoImagesHeap s1 s2) 4 [0] ∅ = some (some b1) := by
      rw [f1, f2, f3]
    exact collectLoop_eq_of_steps (twoImagesHeap s1 s2) [0] ∅ 4 (some b1) hfin

theorem collect_inline_data_first_witness :
    pyB64Decode "AQID" = some [1, 2, 3] ∧ ([1, 2, 3] : List Nat) ≠ [] ∧
    pyB64Decode "BAUG" = some [4, 5, 6] ∧ ([4, 5, 6] : List Nat) ≠ [] ∧
    pyB64Decode "BwgJ" = some [7, 8, 9] ∧ ([7, 8, 9] : List Nat) ≠ [] ∧
    (collect_image_bytes (inlineDeepHeap "AQID") (some 0) = some [1, 2, 3] ∧
     collect_image_bytes (twoImagesHeap "BAUG" "BwgJ") (some 0) = some [4, 5, 6]) :=
  ⟨by decide, by decide, by decide, by decide, by decide, by decide,
    collect_inline_data_first "AQID" "BAUG" "BwgJ" [1, 2, 3] [4, 5, 6] [7, 8, 9]
      (by decide) (by decide) (by decide) (by decide) (by decide) (by decide)⟩
